import Mathlib

/-!
# Abell static-site builder: the build / rebuild pipeline

A shallow embedding of `src/content-generator.js` and `src/action.js`.

* JavaScript objects are association lists in enumeration order.
* File paths are lists of path components; `path.join` appends components.
* A filesystem is the list of its paths with what lives there (a file's bytes, or a
  directory). The times that `fs.statSync` reports are kept by the runtime
  (`Runtime.statTimes`): the code stats `index.md` of an item and nothing it writes.
* The collaborators the code calls but does not define (`JSON.parse`, `markdown-it`,
  `abell-renderer`, `Date.prototype.toDateString`) are fields of `Runtime`; the general
  theorems hold for all of them, the evaluations use `sampleRuntime`.
* `helpers.js` is not part of the sources at hand; its four functions that the build
  calls are modelled from the specification and marked as such.
* A raised exception / rejected promise is `Except.error` or `Outcome.raised`.
-/

namespace Abell

/-! ## JavaScript values and objects -/

/-- Errors raised by the runtime: filesystem errors carry the path. -/
inductive JsError where
  | enoent (path : List String)
  | eexist (path : List String)
  | eisdir (path : List String)
  | enotdir (path : List String)
  | syntaxError
  | typeError
  | thrown (msg : String)
  deriving DecidableEq, Repr

/-- Result of `JSON.parse`. A number is kept as the literal that was written. -/
inductive JsonValue where
  | null
  | bool (b : Bool)
  | num (literal : String)
  | str (s : String)
  | arr (items : List JsonValue)
  | obj (fields : List (String × JsonValue))

/-- Property value of a metadata object: parsed JSON, or a `Date` (as `getTime()` milliseconds). -/
inductive Value where
  | json (v : JsonValue)
  | date (ms : Int)

/-- An ordinary object: own enumerable properties in enumeration order. -/
abbrev JsObject (β : Type) := List (String × β)

/-- Property read `o[k]`; `none` is `undefined`. -/
def getProp {β : Type} (k : String) : JsObject β → Option β
  | [] => none
  | (k', v) :: rest => if k' = k then some v else getProp k rest

/-- Property write `o[k] = v`: an existing key keeps its place, a fresh key is appended. -/
def setProp {β : Type} (k : String) (v : β) : JsObject β → JsObject β
  | [] => [(k, v)]
  | (k', v') :: rest => if k' = k then (k, v) :: rest else (k', v') :: setProp k v rest

/-- Keys in enumeration order (`Object.keys`). -/
def objectKeys {β : Type} (o : JsObject β) : List String := o.map Prod.fst

/-- Values in enumeration order (`Object.values`). -/
def objectValues {β : Type} (o : JsObject β) : List β := o.map Prod.snd

/-- Object built by writing the given properties one after the other. -/
def objectOfEntries {β : Type} (entries : List (String × β)) : JsObject β :=
  entries.foldl (fun o kv => setProp kv.1 kv.2 o) []

/-- Own enumerable properties copied by the spread `{...meta}` of a parsed JSON value:
the fields of an object, the indexed elements of an array, the indexed characters
of a string, and nothing for `null`, booleans and numbers. -/
def spreadProps : JsonValue → JsObject Value
  | .obj fields => objectOfEntries (fields.map (fun kv => (kv.1, Value.json kv.2)))
  | .arr items => items.enum.map (fun iv => (toString iv.1, Value.json iv.2))
  | .str s => s.toList.enum.map (fun ic => (toString ic.1, Value.json (.str (String.singleton ic.2))))
  | _ => []

/-- One content item's metadata object. -/
abbrev ItemMetadata := JsObject Value

/-- The item map `globalMeta.contentMetaInfo`: slug to metadata, in enumeration order. -/
abbrev ItemMap := JsObject ItemMetadata

/-- The object `programInfo.globalMeta`: the configured fields plus `contentMetaInfo`. -/
structure GlobalMeta where
  fields : JsObject Value
  contentMetaInfo : ItemMap

/-- Binding of the key `meta` in a view: not a key of the view (page renders), or
bound to `contentMetaInfo[slug]`, which is `undefined` (`none`) for a slug without entry. -/
inductive MetaBinding where
  | absent
  | bound (entry : Option ItemMetadata)

/-- The object handed to the renderer for one render. -/
structure View where
  contentList : List ItemMetadata
  globalMeta : GlobalMeta
  meta : MetaBinding

/-- A path as its list of components. -/
abbrev Path := List String

/-- The result of `fs.statSync` the code reads: `mtime` and `ctime` in milliseconds. -/
structure Stat where
  mtime : Int
  ctime : Int

/-- Collaborators outside the repository. -/
structure Runtime where
  /-- `JSON.parse`; `none` is a thrown `SyntaxError`. -/
  jsonParse : String → Option JsonValue
  /-- `mdIt.render` of markdown-it, on text as a list of characters. -/
  mdRender : List Char → List Char
  /-- `abellRenderer.render(template, view)`. -/
  abellRender : List Char → View → Except JsError (List Char)
  /-- `Date.prototype.toDateString`. -/
  toDateString : Int → String
  /-- Timestamps the filesystem keeps for the file at a path. -/
  statTimes : Path → Stat

/-! ## Filesystem: names and bytes -/

/-- What lives at a path. -/
inductive Node where
  | file (content : List Char)
  | dir
  deriving DecidableEq

/-- A filesystem: every existing path with its node, in creation order. The root `[]`
always exists and is a directory. -/
abbrev FileSystem := List (Path × Node)

/-- Node at a path, if any. -/
def lookupNode (p : Path) : FileSystem → Option Node
  | [] => none
  | (q, n) :: rest => if q = p then some n else lookupNode p rest

/-- Test `fs.existsSync`. -/
def existsSync (fsys : FileSystem) (p : Path) : Bool :=
  p = [] || (lookupNode p fsys).isSome

/-- Test whether the path is a directory. -/
def isDirectory (fsys : FileSystem) (p : Path) : Bool :=
  p = [] || lookupNode p fsys = some Node.dir

/-- Reading a file, `readFile(p, 'utf-8')`: rejects unless `p` is a file. -/
def readFile (fsys : FileSystem) (p : Path) : Except JsError (List Char) :=
  match lookupNode p fsys with
  | some (Node.file c) => .ok c
  | some Node.dir => .error (.eisdir p)
  | none => .error (.enoent p)

/-- The call `fs.statSync(p)`: throws unless something exists at `p`. -/
def statSync (rt : Runtime) (fsys : FileSystem) (p : Path) : Except JsError Stat :=
  if existsSync fsys p then .ok (rt.statTimes p) else .error (.enoent p)

/-- The call `path.join(base, name, ...)` for plain names: empty segments are dropped. -/
def joinPath (base : Path) (names : List String) : Path :=
  base ++ names.filter (fun s => s ≠ "")

/-! ## Metadata: `getContentMeta` -/

/-- The fallback `{ title: contentSlug, description: "Hi, This is <slug>..." }`
assigned in the `catch` of `getContentMeta`. -/
def defaultMeta (contentSlug : String) : JsonValue :=
  .obj [("title", .str contentSlug),
        ("description", .str ("Hi, This is " ++ contentSlug ++ "..."))]

/-- The `try` block of `getContentMeta`: read `meta.json` and parse it. -/
def readMetaJson (rt : Runtime) (fsys : FileSystem) (contentSlug : String)
    (contentPath : Path) : Except JsError JsonValue :=
  match readFile fsys (joinPath contentPath [contentSlug, "meta.json"]) with
  | .ok text =>
    match rt.jsonParse (String.mk text) with
    | some v => .ok v
    | none => .error .syntaxError
  | .error e => .error e

/-- The function `getContentMeta(contentSlug, contentPath)`. -/
def getContentMeta (rt : Runtime) (fsys : FileSystem) (contentSlug : String)
    (contentPath : Path) : Except JsError ItemMetadata :=
  let parsed : JsonValue :=
    match readMetaJson rt fsys contentSlug contentPath with
    | .ok v => v
    | .error _ => defaultMeta contentSlug
  match statSync rt fsys (joinPath contentPath [contentSlug, "index.md"]) with
  | .error e => .error e
  | .ok st =>
    .ok (setProp "$createdAt" (Value.date st.ctime)
          (setProp "$modifiedAt" (Value.date st.mtime)
            (setProp "$slug" (Value.json (.str contentSlug)) (spreadProps parsed))))

/-! ## The content list of `generateHTMLFile` -/

/-- Insertion pass of the engine sort. The pivot (the later array element) is compared
with the elements already placed, as `comparefn(pivot, element)`, and goes in front of
the first one for which the result is negative. V8 (Node 11 and later) sorts with
TimSort, whose run detection, binary insertion and merges all branch on `order < 0`
only, so a positive result and `0` are the same to it; the binary search of its
insertion pass finds, in a placed prefix that is in order, the place of this scan. -/
def insertByOrder {α : Type} (comparefn : α → α → Int) (pivot : α) : List α → List α
  | [] => [pivot]
  | e :: rest =>
    if comparefn pivot e < 0 then pivot :: e :: rest
    else e :: insertByOrder comparefn pivot rest

/-- The call `array.sort(comparefn)`: elements are placed one after the other. -/
def arraySort {α : Type} (comparefn : α → α → Int) (xs : List α) : List α :=
  xs.foldl (fun placed pivot => insertByOrder comparefn pivot placed) []

/-- Milliseconds of a `Date`-valued property; `none` when the property is no `Date`
(then `.getTime()` / `.toDateString()` throw a `TypeError`). -/
def dateProp (k : String) (o : ItemMetadata) : Option Int :=
  match getProp k o with
  | some (Value.date ms) => some ms
  | _ => none

/-- The expression `x.$createdAt.getTime()` on an entry that has the date. -/
def createdAtTime (o : ItemMetadata) : Int := (dateProp "$createdAt" o).getD 0

/-- The expression `x.$modifiedAt` as milliseconds, on an entry that has the date. -/
def modifiedAtTime (o : ItemMetadata) : Int := (dateProp "$modifiedAt" o).getD 0

/-- The comparator `(a, b) => a.$createdAt.getTime() > b.$createdAt.getTime() ? -1 : 1`.
It is never `0`: on a tie it answers `1` for both orders of its arguments. -/
def compareCreatedAt (a b : ItemMetadata) : Int :=
  if createdAtTime a > createdAtTime b then -1 else 1

/-- The `map` callback: a copy of the entry with both dates as date strings. -/
def toDisplayEntry (rt : Runtime) (contentInfo : ItemMetadata) : ItemMetadata :=
  setProp "$modifiedAt" (Value.json (.str (rt.toDateString (modifiedAtTime contentInfo))))
    (setProp "$createdAt" (Value.json (.str (rt.toDateString (createdAtTime contentInfo))))
      contentInfo)

/-- Both timestamps of the entry are `Date` objects. -/
def hasDates (o : ItemMetadata) : Bool :=
  (dateProp "$createdAt" o).isSome && (dateProp "$modifiedAt" o).isSome

/-- The `contentList` of `generateHTMLFile`: `Object.values(contentMetaInfo)`, sorted,
mapped. An entry without its dates makes `.getTime()` or `.toDateString()` throw. -/
def contentList (rt : Runtime) (items : ItemMap) : Except JsError (List ItemMetadata) :=
  if (objectValues items).all hasDates then
    .ok ((arraySort compareCreatedAt (objectValues items)).map (toDisplayEntry rt))
  else .error .typeError

/-- The view of `generateHTMLFile`: `{ $contentList: contentList, globalMeta }`. -/
def pageView (rt : Runtime) (globalMeta : GlobalMeta) : Except JsError View :=
  match contentList rt globalMeta.contentMetaInfo with
  | .ok l => .ok { contentList := l, globalMeta := globalMeta, meta := .absent }
  | .error e => .error e

/-- The view of `generateContentFile`:
`{ globalMeta, meta: contentMetaInfo[contentSlug], $contentList: Object.values(contentMetaInfo) }`. -/
def contentView (globalMeta : GlobalMeta) (contentSlug : String) : View :=
  { globalMeta := globalMeta
    meta := .bound (getProp contentSlug globalMeta.contentMetaInfo)
    contentList := objectValues globalMeta.contentMetaInfo }

/-! ## Import directives: `importMarkdownAndAddToTemplate`

Template text is a list of characters (standing for the UTF-16 units of the JavaScript
string); an index is a position in that list. -/

/-- Character class `['"]`. -/
def isQuote (c : Char) : Bool := c = '\x27' || c = '\x22'

/-- Characters that `.` does not match. -/
def isLineTerminator (c : Char) : Bool :=
  c = '\n' || c = '\r' || c = Char.ofNat 0x2028 || c = Char.ofNat 0x2029

/-- Match of a literal at the start of the text: the rest of the text. -/
def stripLiteral : List Char → List Char → Option (List Char)
  | [], text => some text
  | _ :: _, [] => none
  | l :: lit, c :: text => if l = c then stripLiteral lit text else none

/-- The pattern ` ?` before a literal that does not start with a space. -/
def skipOptionalSpace : List Char → List Char
  | ' ' :: rest => rest
  | text => text

/-- The pattern ` *` before a character class without the space. -/
def skipSpaces : List Char → List Char
  | ' ' :: rest => skipSpaces rest
  | text => text

/-- The pattern `['"] ?}}` at the start of the text: the rest of the text. -/
def matchClose : List Char → Option (List Char)
  | [] => none
  | q :: rest =>
    if isQuote q then stripLiteral "\x7d\x7d".toList (skipOptionalSpace rest) else none

/-- The pattern `(.*?)['"] ?}}`: the lazy group takes as few characters as lets the
rest match. Result: the capture and the text after the match. -/
def matchCapture : List Char → Option (List Char × List Char)
  | [] => none
  | c :: text =>
    match matchClose (c :: text) with
    | some rest => some ([], rest)
    | none =>
      if isLineTerminator c then none
      else
        match matchCapture text with
        | some (capture, rest) => some (c :: capture, rest)
        | none => none

/-- The pattern `{{ ?import_content *['"](.*?)['"] ?}}` at the start of the text:
the capture and the length of the match. -/
def matchDirective (text : List Char) : Option (List Char × Nat) :=
  match stripLiteral "\x7b\x7b".toList text with
  | none => none
  | some t1 =>
    match stripLiteral "import_content".toList (skipOptionalSpace t1) with
    | none => none
    | some t2 =>
      match skipSpaces t2 with
      | [] => none
      | q :: t3 =>
        if isQuote q then
          match matchCapture t3 with
          | some (capture, rest) => some (capture, text.length - rest.length)
          | none => none
        else none

/-- A match object: `mdPath.index`, `mdPath[0].length`, `mdPath[1]`. -/
structure RegExpMatch where
  index : Nat
  length : Nat
  capture : List Char
  deriving DecidableEq

/-- Leftmost match at or after `start`, where `text` is the input from `start` on. -/
def searchFrom (start : Nat) : List Char → Option RegExpMatch
  | [] => none
  | c :: rest =>
    match matchDirective (c :: rest) with
    | some (capture, len) => some { index := start, length := len, capture := capture }
    | none => searchFrom (start + 1) rest

/-- The call `importSelectRegex.exec(text)` of the global (`/g`) regular expression
whose `lastIndex` is `lastIndex`: the search starts there. After a match the regular
expression's `lastIndex` is `index + length`; after `null` it is `0`. -/
def regexExec (text : List Char) (lastIndex : Nat) : Option RegExpMatch :=
  if lastIndex > text.length then none else searchFrom lastIndex (text.drop lastIndex)

/-- The directive pattern matches somewhere in the text. -/
def containsDirective (text : List Char) : Bool := (regexExec text 0).isSome

/-- Split at every `/`. -/
def splitSlash : List Char → List (List Char)
  | [] => [[]]
  | c :: rest =>
    if c = '/' then [] :: splitSlash rest
    else
      match splitSlash rest with
      | seg :: segs => (c :: seg) :: segs
      | [] => [[c]]

/-- The call `path.join(base, relative)`: empty and `.` segments are dropped, `..`
removes the last component. -/
def joinRelative (base : Path) (relative : List Char) : Path :=
  (splitSlash relative).foldl
    (fun acc seg =>
      if seg = [] ∨ seg = ['.'] then acc
      else if seg = ['.', '.'] then acc.dropLast
      else acc ++ [String.mk seg])
    base

/-- The `while (mdPath !== null)` loop. `fuel` bounds the number of iterations (`none`
when it runs out); `lastIndex` needs no variable, it is `index + length` of `mdPath`. -/
def importLoop (rt : Runtime) (fsys : FileSystem) (contentPath : Path) (view : View) :
    Nat → List Char → Option RegExpMatch → Option (Except JsError (List Char))
  | _, pageTemplate, none => some (.ok pageTemplate)
  | 0, _, some _ => none
  | fuel + 1, pageTemplate, some mdPath =>
    match rt.abellRender mdPath.capture view with
    | .error e => some (.error e)
    | .ok renderedPath =>
      match readFile fsys (joinRelative contentPath renderedPath) with
      | .error e => some (.error e)
      | .ok markdown =>
        let content := rt.mdRender markdown
        let newTemplate :=
          pageTemplate.take mdPath.index ++ content
            ++ pageTemplate.drop (mdPath.index + mdPath.length)
        importLoop rt fsys contentPath view fuel newTemplate
          (regexExec newTemplate (mdPath.index + mdPath.length))

/-- The function `importMarkdownAndAddToTemplate(pageTemplate, contentPath, view)`. -/
def importMarkdownAndAddToTemplate (fuel : Nat) (rt : Runtime) (fsys : FileSystem)
    (pageTemplate : List Char) (contentPath : Path) (view : View) :
    Option (Except JsError (List Char)) :=
  importLoop rt fsys contentPath view fuel pageTemplate (regexExec pageTemplate 0)

/-! ## Filesystem operations -/

/-- Outcome of an `async` function that returns nothing. -/
inductive Outcome where
  | done
  | raised (e : JsError)
  | outOfFuel
  deriving DecidableEq

/-- Write of a node at a path: an existing path keeps its place, a new one is appended. -/
def putNode (p : Path) (n : Node) : FileSystem → FileSystem
  | [] => [(p, n)]
  | (q, m) :: rest => if q = p then (p, n) :: rest else (q, m) :: putNode p n rest

/-- The call `fs.mkdirSync(p)`: the path must be new and its parent a directory. -/
def mkdirSync (fsys : FileSystem) (p : Path) : Except JsError FileSystem :=
  if existsSync fsys p then .error (.eexist p)
  else if isDirectory fsys p.dropLast then .ok (fsys ++ [(p, Node.dir)])
  else .error (.enoent p)

/-- The call `fs.unlinkSync(p)`: the path must be a file. -/
def unlinkSync (fsys : FileSystem) (p : Path) : Except JsError FileSystem :=
  match lookupNode p fsys with
  | some (Node.file _) => .ok (fsys.filter (fun e => e.1 ≠ p))
  | some Node.dir => .error (.eisdir p)
  | none => .error (.enoent p)

/-- The call `fs.writeFileSync(p, data)`: the path must not be a directory and its
parent must be one. -/
def writeFileSync (fsys : FileSystem) (p : Path) (data : List Char) :
    Except JsError FileSystem :=
  if isDirectory fsys p then .error (.eisdir p)
  else if isDirectory fsys p.dropLast then .ok (putNode p (Node.file data) fsys)
  else .error (.enoent p)

/-- The call `fs.readdirSync(p)`: the names directly under the directory. -/
def readdirSync (fsys : FileSystem) (p : Path) : Except JsError (List String) :=
  if isDirectory fsys p then
    .ok (fsys.filterMap (fun e => if e.1 ≠ [] ∧ e.1.dropLast = p then e.1.getLast? else none))
  else if existsSync fsys p then .error (.enotdir p)
  else .error (.enoent p)

/-- The call `fs.copyFileSync(source, target)`. -/
def copyFileSync (fsys : FileSystem) (source target : Path) : Except JsError FileSystem :=
  match readFile fsys source with
  | .ok data => writeFileSync fsys target data
  | .error e => .error e

/-- Modelled from the spec: `rmdirRecursiveSync` of `helpers.js`, which is not under
src/; the spec's "recursive directory delete": "Delete the destination tree entirely".
The path and everything below it are removed; an absent path is left as it is. -/
def rmdirRecursiveSync (fsys : FileSystem) (p : Path) : FileSystem :=
  fsys.filter (fun e => !(p.isPrefixOf e.1))

/-- Modelled from the spec: `copyFolderSync` of `helpers.js`, which is not under src/;
the spec's "recursive directory copy": everything below `source` is written below
`target` under the same relative path. -/
def copyFolderSync (fsys : FileSystem) (source target : Path) : Except JsError FileSystem :=
  if isDirectory fsys source then
    .ok ((fsys.filter (fun e => source.isPrefixOf e.1 && e.1 ≠ source)).foldl
          (fun acc e => putNode (target ++ e.1.drop source.length) e.2 acc) fsys)
  else .error (.enoent source)

/-- Modelled from the spec: `getDirectories` of `helpers.js`, which is not under src/:
"slugs are the content root's immediate subdirectory names". -/
def getDirectories (fsys : FileSystem) (p : Path) : Except JsError (List String) :=
  if isDirectory fsys p then
    .ok (fsys.filterMap (fun e =>
      if e.1 ≠ [] ∧ e.1.dropLast = p ∧ e.2 = Node.dir then e.1.getLast? else none))
  else .error (.enoent p)

/-- Modelled from the spec: `createPathIfAbsent` of `helpers.js`, which is not under
src/; it makes the directory that "write the result to `<destination>/<slug>/index.html`"
needs, when that directory does not exist yet. -/
def createPathIfAbsent (fsys : FileSystem) (p : Path) : Except JsError FileSystem :=
  if existsSync fsys p then .ok fsys else mkdirSync fsys p

/-! ## Build: `generateContentFile`, `generateHTMLFile`, `build` -/

/-- The object `programInfo.abellConfigs`, as far as the build reads it. -/
structure AbellConfigs where
  sourcePath : Path
  contentPath : Path
  destinationPath : Path

/-- The object `programInfo`. -/
structure ProgramInfo where
  abellConfigs : AbellConfigs
  contentTemplate : List Char
  globalMeta : GlobalMeta
  logs : String
  templateExtension : String
  compileStartTime : Int

/-- The loop of `copyContentAssets`: `fs.copyFileSync` for each name, until one throws. -/
def copyEach (source target : Path) : List String → FileSystem → Outcome × FileSystem
  | [], fsys => (.done, fsys)
  | filename :: rest, fsys =>
    match copyFileSync fsys (joinPath source [filename]) (joinPath target [filename]) with
    | .error e => (.raised e, fsys)
    | .ok fsys' => copyEach source target rest fsys'

/-- The function `copyContentAssets(from, to)`. -/
def copyContentAssets (source target : Path) (fsys : FileSystem) : Outcome × FileSystem :=
  match readdirSync fsys source with
  | .error e => (.raised e, fsys)
  | .ok names =>
    copyEach source target
      (names.filter (fun val => val ≠ "index.md" && val ≠ "meta.json")) fsys

/-- The function `generateContentFile(contentSlug, programInfo)`. -/
def generateContentFile (fuel : Nat) (rt : Runtime) (programInfo : ProgramInfo)
    (contentSlug : String) (fsys : FileSystem) : Outcome × FileSystem :=
  match createPathIfAbsent fsys
      (joinPath programInfo.abellConfigs.destinationPath [contentSlug]) with
  | .error e => (.raised e, fsys)
  | .ok fs1 =>
    let view := contentView programInfo.globalMeta contentSlug
    match importMarkdownAndAddToTemplate fuel rt fs1 programInfo.contentTemplate
        programInfo.abellConfigs.contentPath view with
    | none => (.outOfFuel, fs1)
    | some (.error e) => (.raised e, fs1)
    | some (.ok contentTemplate) =>
      match rt.abellRender contentTemplate view with
      | .error e => (.raised e, fs1)
      | .ok contentHTML =>
        match writeFileSync fs1
            (joinPath programInfo.abellConfigs.destinationPath [contentSlug, "index.html"])
            contentHTML with
        | .error e => (.raised e, fs1)
        | .ok fs2 =>
          copyContentAssets
            (joinPath programInfo.abellConfigs.contentPath [contentSlug])
            (joinPath programInfo.abellConfigs.destinationPath [contentSlug]) fs2

/-- The function `generateHTMLFile(filepath, programInfo)`. -/
def generateHTMLFile (fuel : Nat) (rt : Runtime) (programInfo : ProgramInfo)
    (filepath : String) (fsys : FileSystem) : Outcome × FileSystem :=
  match readFile fsys
      (joinPath programInfo.abellConfigs.sourcePath
        [filepath ++ programInfo.templateExtension]) with
  | .error e => (.raised e, fsys)
  | .ok pageTemplate =>
    match pageView rt programInfo.globalMeta with
    | .error e => (.raised e, fsys)
    | .ok view =>
      match importMarkdownAndAddToTemplate fuel rt fsys pageTemplate
          programInfo.abellConfigs.contentPath view with
      | none => (.outOfFuel, fsys)
      | some (.error e) => (.raised e, fsys)
      | some (.ok newPageTemplate) =>
        match rt.abellRender newPageTemplate view with
        | .error e => (.raised e, fsys)
        | .ok pageContent =>
          match writeFileSync fsys
              (joinPath programInfo.abellConfigs.destinationPath [filepath ++ ".html"])
              pageContent with
          | .error e => (.raised e, fsys)
          | .ok fs1 => (.done, fs1)

/-- The loop `for (let contentSlug of contentDirectories)` of `build`. -/
def generateContentFiles (fuel : Nat) (rt : Runtime) (programInfo : ProgramInfo) :
    List String → FileSystem → Outcome × FileSystem
  | [], fsys => (.done, fsys)
  | contentSlug :: rest, fsys =>
    match generateContentFile fuel rt programInfo contentSlug fsys with
    | (.done, fsys') => generateContentFiles fuel rt programInfo rest fsys'
    | failed => failed

/-- The body of `build` after `contentDirectories` is read and the destination is
deleted: recreate it, copy the source tree, drop `[content]` and `index.abell`,
generate the item pages and the index page. -/
def buildInto (fuel : Nat) (rt : Runtime) (programInfo : ProgramInfo)
    (contentDirectories : List String) (fsys : FileSystem) : Outcome × FileSystem :=
  match mkdirSync fsys programInfo.abellConfigs.destinationPath with
  | .error e => (.raised e, fsys)
  | .ok fs1 =>
    match copyFolderSync fs1 programInfo.abellConfigs.sourcePath
        programInfo.abellConfigs.destinationPath with
    | .error e => (.raised e, fs1)
    | .ok fs2 =>
      match unlinkSync
          (rmdirRecursiveSync fs2
            (joinPath programInfo.abellConfigs.destinationPath ["[content]"]))
          (joinPath programInfo.abellConfigs.destinationPath ["index.abell"]) with
      | .error e =>
        (.raised e,
          rmdirRecursiveSync fs2
            (joinPath programInfo.abellConfigs.destinationPath ["[content]"]))
      | .ok fs3 =>
        match generateContentFiles fuel rt programInfo contentDirectories fs3 with
        | (.done, fs4) => generateHTMLFile fuel rt programInfo "index" fs4
        | failed => failed

/-- The function `build(programInfo)`. It assigns no property of `programInfo`:
`Object.values` hands `sort` a fresh array and the `map` callback builds new objects,
so the result is an outcome and a filesystem. -/
def build (fuel : Nat) (rt : Runtime) (programInfo : ProgramInfo) (fsys : FileSystem) :
    Outcome × FileSystem :=
  match getDirectories fsys programInfo.abellConfigs.contentPath with
  | .error e => (.raised e, fsys)
  | .ok contentDirectories =>
    buildInto fuel rt programInfo contentDirectories
      (rmdirRecursiveSync fsys programInfo.abellConfigs.destinationPath)

/-! ## Serve: the content watcher -/

/-- What a watcher callback works on: the shared `programInfo`, the filesystem, and
the number of `bs.reload()` calls so far. -/
structure ServeState where
  programInfo : ProgramInfo
  fsys : FileSystem
  reloads : Nat

/-- The test `filePath.endsWith(suffix)` for a suffix without a separator. -/
def pathEndsWith (filePath : Path) (suffix : String) : Bool :=
  match filePath.getLast? with
  | some name => suffix.toList.isSuffixOf name.toList
  | none => false

/-- The expression `filePath.slice(contentPath.length + 1).split('/')[0]` for a
`filePath` below `contentPath`: the first component after the content root. -/
def directoryNameOf (contentPath filePath : Path) : String :=
  (filePath.drop contentPath.length).headD ""

/-- The assignment `programInfo.globalMeta.contentMetaInfo[directoryName] = meta`. -/
def setContentMeta (programInfo : ProgramInfo) (directoryName : String)
    (entry : ItemMetadata) : ProgramInfo :=
  { programInfo with
    globalMeta :=
      { programInfo.globalMeta with
        contentMetaInfo := setProp directoryName entry programInfo.globalMeta.contentMetaInfo } }

/-- The `try` block of the content watcher: the outcome, and `programInfo` and the
filesystem as the block leaves them. -/
def contentWatcherTry (fuel : Nat) (rt : Runtime) (filePath : Path) (st : ServeState) :
    Outcome × ServeState :=
  let directoryName := directoryNameOf st.programInfo.abellConfigs.contentPath filePath
  if pathEndsWith filePath "index.md" then
    match generateContentFile fuel rt st.programInfo directoryName st.fsys with
    | (outcome, fsys') => (outcome, { st with fsys := fsys' })
  else if pathEndsWith filePath "meta.json" then
    match getContentMeta rt st.fsys directoryName st.programInfo.abellConfigs.contentPath with
    | .error e => (.raised e, st)
    | .ok entry =>
      match build fuel rt (setContentMeta st.programInfo directoryName entry) st.fsys with
      | (outcome, fsys') =>
        (outcome,
          { st with
            programInfo := setContentMeta st.programInfo directoryName entry
            fsys := fsys' })
  else
    match build fuel rt st.programInfo st.fsys with
    | (outcome, fsys') => (outcome, { st with fsys := fsys' })

/-- The callback of the content watcher (`.on('all', async (event, filePath) => ...)`):
the `try` block, the `catch` that builds everything, then `bs.reload()`. -/
def contentWatcher (fuel : Nat) (rt : Runtime) (filePath : Path) (st : ServeState) :
    Outcome × ServeState :=
  match contentWatcherTry fuel rt filePath st with
  | (.done, st1) => (.done, { st1 with reloads := st1.reloads + 1 })
  | (.outOfFuel, st1) => (.outOfFuel, st1)
  | (.raised _, st1) =>
    match build fuel rt st1.programInfo st1.fsys with
    | (.done, fsys') => (.done, { st1 with fsys := fsys', reloads := st1.reloads + 1 })
    | (failed, fsys') => (failed, { st1 with fsys := fsys' })

/-! ## Concrete inputs -/

/-- A metadata file that is valid JSON and defines the keys the code writes itself. -/
def overridingMetaText : List Char :=
  "\x7b\x22$slug\x22:\x22other\x22,\x22$createdAt\x22:\x22never\x22,\x22$modifiedAt\x22:1\x7d".toList

/-- A sample runtime: `JSON.parse` knows one document and rejects everything else,
the markdown converter wraps a paragraph, the renderer returns the template. -/
def sampleRuntime : Runtime where
  jsonParse := fun text =>
    if text.toList = overridingMetaText then
      some (.obj [("$slug", .str "other"), ("$createdAt", .str "never"), ("$modifiedAt", .num "1")])
    else none
  mdRender := fun md => "<p>".toList ++ md ++ "</p>\n".toList
  abellRender := fun template _ => .ok template
  toDateString := fun _ => "Thu Jan 01 1970"
  statTimes := fun _ => { mtime := 2000, ctime := 1000 }

/-- A metadata entry as `getContentMeta` builds it. -/
def sampleEntry (slug : String) (created : Int) : ItemMetadata :=
  [("title", Value.json (.str slug)), ("$slug", Value.json (.str slug)),
   ("$modifiedAt", Value.date (created + 1)), ("$createdAt", Value.date created)]

/-- Item map enumerating `a`, `b`, `c`, where `a` and `b` share a creation time. -/
def sampleItems : ItemMap :=
  [("a", sampleEntry "a" 5), ("b", sampleEntry "b" 5), ("c", sampleEntry "c" 9)]

/-- Content root with the item `bad`, whose `meta.json` is not valid JSON. -/
def badMetaFs : FileSystem :=
  [(["content"], .dir), (["content", "bad"], .dir),
   (["content", "bad", "index.md"], .file "# Bad".toList),
   (["content", "bad", "meta.json"], .file "\x7boops".toList)]

/-- Content root with the item `bad`, which has neither `meta.json` nor `index.md`. -/
def noIndexFs : FileSystem :=
  [(["content"], .dir), (["content", "bad"], .dir)]

/-- Content root with an item whose `meta.json` defines `$slug`, `$createdAt`, `$modifiedAt`. -/
def overridingMetaFs : FileSystem :=
  [(["content"], .dir), (["content", "post"], .dir),
   (["content", "post", "index.md"], .file "# Post".toList),
   (["content", "post", "meta.json"], .file overridingMetaText)]

/-- Content root with two readable fragments, `a.md` and `b.md`. -/
def fragmentsFs : FileSystem :=
  [(["content"], .dir), (["content", "a.md"], .file "hi".toList),
   (["content", "b.md"], .file "there".toList)]

/-- Template made of two import directives, one right after the other. -/
def twoImportsTemplate : List Char :=
  "\x7b\x7b import_content \x27a.md\x27 \x7d\x7d\x7b\x7b import_content \x27b.md\x27 \x7d\x7d".toList

/-- Template whose only directive names a file that does not exist. -/
def missingImportTemplate : List Char :=
  "<main>\x7b\x7b import_content \x27missing.md\x27 \x7d\x7d</main>".toList

/-- A view over an empty site. -/
def emptyView : View :=
  { contentList := [], globalMeta := { fields := [], contentMetaInfo := [] }, meta := .absent }

/-- Global metadata over `sampleItems`. -/
def sampleGlobalMeta : GlobalMeta := { fields := [], contentMetaInfo := sampleItems }

/-- Global metadata whose item map holds the one item `a`. -/
def singleGlobalMeta : GlobalMeta :=
  { fields := [], contentMetaInfo := [("a", sampleEntry "a" 5)] }

/-- A site: source tree with the index page and the item template, content tree with
the items `a` (with an asset) and `b`; no destination tree yet. -/
def siteFs : FileSystem :=
  [(["src"], .dir),
   (["src", "index.abell"], .file "<h1>Home</h1>".toList),
   (["src", "style.css"], .file "body \x7b\x7d".toList),
   (["src", "[content]"], .dir),
   (["src", "[content]", "index.abell"], .file "<article></article>".toList),
   (["content"], .dir),
   (["content", "a"], .dir),
   (["content", "a", "index.md"], .file "# A".toList),
   (["content", "a", "cover.png"], .file "PNG".toList),
   (["content", "b"], .dir),
   (["content", "b", "index.md"], .file "# B".toList)]

/-- Program state of a serve session that started when `a` was the only item. -/
def sampleProgramInfo : ProgramInfo :=
  { abellConfigs :=
      { sourcePath := ["src"], contentPath := ["content"], destinationPath := [".debug"] }
    contentTemplate := "<article></article>".toList
    globalMeta := singleGlobalMeta
    logs := "minimum"
    templateExtension := ".abell"
    compileStartTime := 0 }

/-- Serve state after the directory `b` was added under the content root. -/
def sampleServeState : ServeState :=
  { programInfo := sampleProgramInfo, fsys := siteFs, reloads := 0 }

/-- The site after a first build, with the item directory `b` deleted afterwards. -/
def afterDeleteFs : FileSystem :=
  rmdirRecursiveSync (build 5 sampleRuntime sampleProgramInfo siteFs).2 ["content", "b"]

/-- Serve state when the watcher reports `content/b/index.md` (removed with `b`). -/
def afterDeleteState : ServeState :=
  { programInfo := sampleProgramInfo, fsys := afterDeleteFs, reloads := 1 }

end Abell

namespace Abell

/-! ## Objects: reading after writing -/

theorem getProp_setProp_same {β : Type} (k : String) (v : β) (o : JsObject β) :
    getProp k (setProp k v o) = some v := by
  induction o with
  | nil => simp [setProp, getProp]
  | cons kv rest ih =>
    obtain ⟨k', v'⟩ := kv
    by_cases h : k' = k
    · simp [setProp, getProp, h]
    · simp [setProp, getProp, h, ih]

theorem getProp_setProp_other {β : Type} (k k' : String) (v : β) (o : JsObject β)
    (h : k' ≠ k) : getProp k' (setProp k v o) = getProp k' o := by
  induction o with
  | nil => simp [setProp, getProp, Ne.symm h]
  | cons kv rest ih =>
    obtain ⟨k1, v1⟩ := kv
    by_cases h1 : k1 = k
    · subst h1
      simp [setProp, getProp, Ne.symm h]
    · by_cases h2 : k1 = k'
      · subst h2
        simp [setProp, getProp, h1]
      · simp [setProp, getProp, h1, h2, ih]

/-! ## The engine sort with a comparator that is negative exactly on a larger key -/

theorem insertByOrder_perm {α : Type} (comparefn : α → α → Int) (x : α) (l : List α) :
    (insertByOrder comparefn x l).Perm (x :: l) := by
  induction l with
  | nil => simp [insertByOrder]
  | cons e rest ih =>
    unfold insertByOrder
    split
    · exact List.Perm.refl _
    · exact (List.Perm.cons e ih).trans (List.Perm.swap x e rest)

theorem insertByOrder_pairwise {α : Type} (comparefn : α → α → Int) (key : α → Int)
    (hcmp : ∀ a b, comparefn a b < 0 ↔ key b < key a) (x : α) (l : List α)
    (hl : l.Pairwise (fun a b => key b ≤ key a)) :
    (insertByOrder comparefn x l).Pairwise (fun a b => key b ≤ key a) := by
  induction l with
  | nil => simp [insertByOrder]
  | cons e rest ih =>
    have hrest := (List.pairwise_cons.mp hl).2
    have he := (List.pairwise_cons.mp hl).1
    unfold insertByOrder
    split
    · rename_i hlt
      have hxe : key e < key x := (hcmp x e).mp hlt
      refine List.pairwise_cons.mpr ⟨?_, hl⟩
      intro b hb
      rcases List.mem_cons.mp hb with hbe | hbr
      · subst hbe
        exact le_of_lt hxe
      · exact le_trans (he b hbr) (le_of_lt hxe)
    · rename_i hge
      have hxe : key x ≤ key e := by
        by_contra hcon
        exact hge ((hcmp x e).mpr (lt_of_not_le hcon))
      refine List.pairwise_cons.mpr ⟨?_, ih hrest⟩
      intro b hb
      have hb' : b ∈ x :: rest := (insertByOrder_perm comparefn x rest).subset hb
      rcases List.mem_cons.mp hb' with hbx | hbr
      · subst hbx
        exact hxe
      · exact he b hbr

theorem insertByOrder_filter {α : Type} (comparefn : α → α → Int) (key : α → Int)
    (hcmp : ∀ a b, comparefn a b < 0 ↔ key b < key a) (x : α) (l : List α)
    (hl : l.Pairwise (fun a b => key b ≤ key a)) (t : Int) :
    (insertByOrder comparefn x l).filter (fun a => decide (key a = t))
      = l.filter (fun a => decide (key a = t)) ++ [x].filter (fun a => decide (key a = t)) := by
  induction l with
  | nil => simp [insertByOrder]
  | cons e rest ih =>
    have hrest := (List.pairwise_cons.mp hl).2
    have he := (List.pairwise_cons.mp hl).1
    unfold insertByOrder
    split
    · rename_i hlt
      have hxe : key e < key x := (hcmp x e).mp hlt
      by_cases hxt : key x = t
      · have hnone : (e :: rest).filter (fun a => decide (key a = t)) = [] := by
          apply List.filter_eq_nil_iff.mpr
          intro a ha
          have hle : key a ≤ key e := by
            rcases List.mem_cons.mp ha with h1 | h1
            · subst h1
              exact le_refl _
            · exact he a h1
          have : key a ≠ t := by omega
          simpa using this
        rw [List.filter_cons, hnone]
        simp [hxt]
      · simp [List.filter_cons, hxt]
    · rw [List.filter_cons, List.filter_cons, ih hrest]
      split <;> simp

theorem foldl_insertByOrder {α : Type} (comparefn : α → α → Int) (key : α → Int)
    (hcmp : ∀ a b, comparefn a b < 0 ↔ key b < key a) (xs placed : List α)
    (hp : placed.Pairwise (fun a b => key b ≤ key a)) :
    (xs.foldl (fun acc pivot => insertByOrder comparefn pivot acc) placed).Perm (placed ++ xs)
    ∧ (xs.foldl (fun acc pivot => insertByOrder comparefn pivot acc) placed).Pairwise
        (fun a b => key b ≤ key a)
    ∧ ∀ t : Int,
        (xs.foldl (fun acc pivot => insertByOrder comparefn pivot acc) placed).filter
            (fun a => decide (key a = t))
          = placed.filter (fun a => decide (key a = t))
            ++ xs.filter (fun a => decide (key a = t)) := by
  induction xs generalizing placed with
  | nil => simp [hp]
  | cons x rest ih =>
    have hins := insertByOrder_pairwise comparefn key hcmp x placed hp
    obtain ⟨h1, h2, h3⟩ := ih (insertByOrder comparefn x placed) hins
    refine ⟨?_, h2, ?_⟩
    · simp only [List.foldl_cons]
      refine h1.trans ?_
      have := (insertByOrder_perm comparefn x placed).append_right rest
      refine this.trans ?_
      exact (@List.perm_middle _ x placed rest).symm
    · intro t
      simp only [List.foldl_cons]
      rw [h3 t, insertByOrder_filter comparefn key hcmp x placed hp t]
      by_cases hxt : key x = t <;> simp [List.filter_cons, hxt]

theorem arraySort_stable {α : Type} (comparefn : α → α → Int) (key : α → Int)
    (hcmp : ∀ a b, comparefn a b < 0 ↔ key b < key a) (xs : List α) :
    (arraySort comparefn xs).Perm xs
    ∧ (arraySort comparefn xs).Pairwise (fun a b => key b ≤ key a)
    ∧ ∀ t : Int, (arraySort comparefn xs).filter (fun a => decide (key a = t))
        = xs.filter (fun a => decide (key a = t)) := by
  have h := foldl_insertByOrder comparefn key hcmp xs [] List.Pairwise.nil
  simpa [arraySort] using h

theorem compareCreatedAt_neg (a b : ItemMetadata) :
    compareCreatedAt a b < 0 ↔ createdAtTime b < createdAtTime a := by
  unfold compareCreatedAt
  split
  · rename_i h
    simp only [gt_iff_lt] at h
    simp [h]
  · rename_i h
    simp only [gt_iff_lt] at h
    simp [h]

/-! ## C1: the content list is the stable descending sort -/

/-- C1. For an item map whose entries carry their two dates, the list that
`generateHTMLFile` binds as `$contentList` is the display projection of a reordering
`sorted` of `Object.values(contentMetaInfo)` in which an entry never precedes one
created later, and in which the entries of any one creation time stand in the
enumeration order of the item map. -/
theorem contentList_stable_descending (rt : Runtime) (items : ItemMap)
    (hdates : ∀ o ∈ objectValues items, hasDates o = true) :
    ∃ sorted : List ItemMetadata,
      contentList rt items = .ok (sorted.map (toDisplayEntry rt))
      ∧ sorted.Perm (objectValues items)
      ∧ sorted.Pairwise (fun a b => createdAtTime b ≤ createdAtTime a)
      ∧ ∀ t : Int, sorted.filter (fun o => decide (createdAtTime o = t))
          = (objectValues items).filter (fun o => decide (createdAtTime o = t)) := by
  refine ⟨arraySort compareCreatedAt (objectValues items), ?_,
    arraySort_stable compareCreatedAt createdAtTime compareCreatedAt_neg (objectValues items)⟩
  unfold contentList
  rw [if_pos (List.all_eq_true.mpr hdates)]

theorem contentList_stable_descending_witness :
    ∃ sorted : List ItemMetadata,
      contentList sampleRuntime sampleItems = .ok (sorted.map (toDisplayEntry sampleRuntime))
      ∧ sorted.Perm (objectValues sampleItems)
      ∧ sorted.Pairwise (fun a b => createdAtTime b ≤ createdAtTime a)
      ∧ ∀ t : Int, sorted.filter (fun o => decide (createdAtTime o = t))
          = (objectValues sampleItems).filter (fun o => decide (createdAtTime o = t)) :=
  contentList_stable_descending sampleRuntime sampleItems (by decide)

/-- Items `a`, `b` (same creation time) and the later `c` are listed `c`, `a`, `b`. -/
theorem contentList_sampleItems :
    contentList sampleRuntime sampleItems
      = .ok ([sampleEntry "c" 9, sampleEntry "a" 5, sampleEntry "b" 5].map
          (toDisplayEntry sampleRuntime)) := by
  rfl

/-! ## C3, C9: `getContentMeta` -/

theorem getContentMeta_of_stat (rt : Runtime) (fsys : FileSystem) (contentSlug : String)
    (contentPath : Path)
    (hstat : existsSync fsys (joinPath contentPath [contentSlug, "index.md"]) = true) :
    getContentMeta rt fsys contentSlug contentPath
      = .ok (setProp "$createdAt"
              (Value.date (rt.statTimes (joinPath contentPath [contentSlug, "index.md"])).ctime)
            (setProp "$modifiedAt"
              (Value.date (rt.statTimes (joinPath contentPath [contentSlug, "index.md"])).mtime)
            (setProp "$slug" (Value.json (.str contentSlug))
              (spreadProps
                (match readMetaJson rt fsys contentSlug contentPath with
                 | .ok v => v
                 | .error _ => defaultMeta contentSlug))))) := by
  simp [getContentMeta, statSync, hstat]

theorem readMetaJson_error (rt : Runtime) (fsys : FileSystem) (contentSlug : String)
    (contentPath : Path)
    (hmeta : (∀ text, readFile fsys (joinPath contentPath [contentSlug, "meta.json"]) ≠ .ok text)
      ∨ ∃ text, readFile fsys (joinPath contentPath [contentSlug, "meta.json"]) = .ok text
          ∧ rt.jsonParse (String.mk text) = none) :
    ∃ e, readMetaJson rt fsys contentSlug contentPath = .error e := by
  unfold readMetaJson
  rcases hmeta with habsent | ⟨text, hread, hparse⟩
  · cases hr : readFile fsys (joinPath contentPath [contentSlug, "meta.json"]) with
    | ok text => exact absurd hr (habsent text)
    | error e => exact ⟨e, rfl⟩
  · rw [hread]
    simp [hparse]

theorem spreadProps_defaultMeta (contentSlug : String) :
    spreadProps (defaultMeta contentSlug)
      = [("title", Value.json (.str contentSlug)),
         ("description", Value.json (.str ("Hi, This is " ++ contentSlug ++ "...")))] := by
  simp [spreadProps, defaultMeta, objectOfEntries, setProp]

/-- C3 as stated fails. With an invalid `meta.json` the description is
"Hi, This is bad..." and not "Hi, this is bad..."; and for an item directory without
`index.md` the call raises. -/
theorem getContentMeta_fallback_counterexample :
    (∃ m, getContentMeta sampleRuntime badMetaFs "bad" ["content"] = .ok m
        ∧ getProp "title" m = some (Value.json (.str "bad"))
        ∧ getProp "description" m = some (Value.json (.str "Hi, This is bad..."))
        ∧ getProp "description" m ≠ some (Value.json (.str "Hi, this is bad...")))
    ∧ getContentMeta sampleRuntime noIndexFs "bad" ["content"]
        = .error (.enoent ["content", "bad", "index.md"]) := by
  refine ⟨⟨_, rfl, rfl, rfl, ?_⟩, rfl⟩
  have h : getProp "description"
      (setProp "$createdAt" (Value.date 1000)
        (setProp "$modifiedAt" (Value.date 2000)
          (setProp "$slug" (Value.json (.str "bad"))
            (spreadProps (defaultMeta "bad")))))
      = some (Value.json (.str "Hi, This is bad...")) := rfl
  intro hcon
  have h2 := h.symm.trans hcon
  simp only [Option.some.injEq, Value.json.injEq, JsonValue.str.injEq] at h2
  exact absurd h2 (by decide)

/-- C3, amended. When `meta.json` is absent or is not valid JSON, and the item has an
`index.md` to stat, `getContentMeta` returns a metadata object whose title is the slug
and whose description is "Hi, This is " followed by the slug and "...". -/
theorem getContentMeta_fallback (rt : Runtime) (fsys : FileSystem) (contentSlug : String)
    (contentPath : Path)
    (hmeta : (∀ text, readFile fsys (joinPath contentPath [contentSlug, "meta.json"]) ≠ .ok text)
      ∨ ∃ text, readFile fsys (joinPath contentPath [contentSlug, "meta.json"]) = .ok text
          ∧ rt.jsonParse (String.mk text) = none)
    (hstat : existsSync fsys (joinPath contentPath [contentSlug, "index.md"]) = true) :
    ∃ m, getContentMeta rt fsys contentSlug contentPath = .ok m
      ∧ getProp "title" m = some (Value.json (.str contentSlug))
      ∧ getProp "description" m
          = some (Value.json (.str ("Hi, This is " ++ contentSlug ++ "..."))) := by
  obtain ⟨e, he⟩ := readMetaJson_error rt fsys contentSlug contentPath hmeta
  refine ⟨_, getContentMeta_of_stat rt fsys contentSlug contentPath hstat, ?_, ?_⟩
  · rw [he]
    simp only [spreadProps_defaultMeta]
    rw [getProp_setProp_other _ _ _ _ (by decide), getProp_setProp_other _ _ _ _ (by decide),
      getProp_setProp_other _ _ _ _ (by decide)]
    simp [getProp]
  · rw [he]
    simp only [spreadProps_defaultMeta]
    rw [getProp_setProp_other _ _ _ _ (by decide), getProp_setProp_other _ _ _ _ (by decide),
      getProp_setProp_other _ _ _ _ (by decide)]
    simp [getProp]

theorem getContentMeta_fallback_witness :
    ∃ m, getContentMeta sampleRuntime badMetaFs "bad" ["content"] = .ok m
      ∧ getProp "title" m = some (Value.json (.str "bad"))
      ∧ getProp "description" m = some (Value.json (.str ("Hi, This is " ++ "bad" ++ "..."))) :=
  getContentMeta_fallback sampleRuntime badMetaFs "bad" ["content"]
    (Or.inr ⟨"\x7boops".toList, rfl, rfl⟩) rfl

/-- C9. Whatever `meta.json` holds, when the item's `index.md` can be stat'ed
`getContentMeta` returns a metadata object whose `$createdAt` and `$modifiedAt` are the
`ctime` and `mtime` of that stat and whose `$slug` is the directory name. -/
theorem getContentMeta_stat_fields (rt : Runtime) (fsys : FileSystem) (contentSlug : String)
    (contentPath : Path)
    (hstat : existsSync fsys (joinPath contentPath [contentSlug, "index.md"]) = true) :
    ∃ m, getContentMeta rt fsys contentSlug contentPath = .ok m
      ∧ getProp "$createdAt" m
          = some (Value.date (rt.statTimes (joinPath contentPath [contentSlug, "index.md"])).ctime)
      ∧ getProp "$modifiedAt" m
          = some (Value.date (rt.statTimes (joinPath contentPath [contentSlug, "index.md"])).mtime)
      ∧ getProp "$slug" m = some (Value.json (.str contentSlug)) := by
  refine ⟨_, getContentMeta_of_stat rt fsys contentSlug contentPath hstat, ?_, ?_, ?_⟩
  · exact getProp_setProp_same _ _ _
  · rw [getProp_setProp_other _ _ _ _ (by decide)]
    exact getProp_setProp_same _ _ _
  · rw [getProp_setProp_other _ _ _ _ (by decide), getProp_setProp_other _ _ _ _ (by decide)]
    exact getProp_setProp_same _ _ _

theorem getContentMeta_stat_fields_witness :
    ∃ m, getContentMeta sampleRuntime overridingMetaFs "post" ["content"] = .ok m
      ∧ getProp "$createdAt" m
          = some (Value.date
              (sampleRuntime.statTimes (joinPath ["content"] ["post", "index.md"])).ctime)
      ∧ getProp "$modifiedAt" m
          = some (Value.date
              (sampleRuntime.statTimes (joinPath ["content"] ["post", "index.md"])).mtime)
      ∧ getProp "$slug" m = some (Value.json (.str "post")) :=
  getContentMeta_stat_fields sampleRuntime overridingMetaFs "post" ["content"] rfl

/-- The sample `meta.json` is parsed and does define the three keys, in this order. -/
theorem overridingMeta_is_parsed :
    (getContentMeta sampleRuntime overridingMetaFs "post" ["content"]).toOption.map objectKeys
      = some ["$slug", "$createdAt", "$modifiedAt"] := by
  rfl

/-! ## C2, C4: import expansion -/

/-- C2, at the failing input. Both fragments are readable and their HTML holds no
directive, yet the result still holds the second directive: the first fragment's HTML
(10 characters) is shorter than the directive (27), the search resumes at index 27 of
the new text, and the second directive starts at index 10. -/
theorem importMarkdown_leaves_directive :
    readFile fragmentsFs ["content", "a.md"] = .ok "hi".toList
    ∧ readFile fragmentsFs ["content", "b.md"] = .ok "there".toList
    ∧ containsDirective (sampleRuntime.mdRender "hi".toList) = false
    ∧ containsDirective (sampleRuntime.mdRender "there".toList) = false
    ∧ importMarkdownAndAddToTemplate 5 sampleRuntime fragmentsFs twoImportsTemplate
        ["content"] emptyView
        = some (.ok "<p>hi</p>\n\x7b\x7b import_content \x27b.md\x27 \x7d\x7d".toList)
    ∧ containsDirective "<p>hi</p>\n\x7b\x7b import_content \x27b.md\x27 \x7d\x7d".toList = true := by
  refine ⟨rfl, rfl, rfl, rfl, rfl, rfl⟩

/-- C4, at the failing input. A directive naming a file that cannot be read makes
`importMarkdownAndAddToTemplate` raise the read error; no text is returned. -/
theorem importMarkdown_unreadable_raises :
    importMarkdownAndAddToTemplate 5 sampleRuntime fragmentsFs missingImportTemplate
        ["content"] emptyView
      = some (.error (.enoent ["content", "missing.md"])) := by
  rfl

/-! ## C5: the content list of an item view -/

/-- C5, at the failing input. For the item map `a`, `b`, `c` the item view binds the
raw `Object.values` in enumeration order, the page view binds `c`, `a`, `b` with date
strings; already for a single item the two lists differ, the item view holding the
`Date` where the page view holds the date string. -/
theorem contentView_list_is_not_page_list :
    (contentView sampleGlobalMeta "a").contentList
        = [sampleEntry "a" 5, sampleEntry "b" 5, sampleEntry "c" 9]
    ∧ contentList sampleRuntime sampleGlobalMeta.contentMetaInfo
        = .ok ([sampleEntry "c" 9, sampleEntry "a" 5, sampleEntry "b" 5].map
            (toDisplayEntry sampleRuntime))
    ∧ ((contentView singleGlobalMeta "a").contentList.map (getProp "$createdAt")
        = [some (Value.date 5)])
    ∧ ((contentList sampleRuntime singleGlobalMeta.contentMetaInfo).toOption.map
          (fun l => l.map (getProp "$createdAt"))
        = some [some (Value.json (.str "Thu Jan 01 1970"))])
    ∧ ∀ l, contentList sampleRuntime singleGlobalMeta.contentMetaInfo = .ok l →
        (contentView singleGlobalMeta "a").contentList ≠ l := by
  refine ⟨rfl, rfl, rfl, rfl, ?_⟩
  intro l hl hcon
  have h1 : contentList sampleRuntime singleGlobalMeta.contentMetaInfo
      = .ok ([sampleEntry "a" 5].map (toDisplayEntry sampleRuntime)) := rfl
  rw [h1] at hl
  have h2 : [sampleEntry "a" 5].map (toDisplayEntry sampleRuntime) = l := by
    injection hl
  have h3 : (contentView singleGlobalMeta "a").contentList = [sampleEntry "a" 5] := rfl
  rw [h3, ← h2] at hcon
  have h4 := congrArg (fun l => l.map (getProp "$createdAt")) hcon
  have h5 : ([sampleEntry "a" 5].map (getProp "$createdAt")) = [some (Value.date 5)] := rfl
  have h6 : (([sampleEntry "a" 5].map (toDisplayEntry sampleRuntime)).map (getProp "$createdAt"))
      = [some (Value.json (.str "Thu Jan 01 1970"))] := rfl
  simp only [] at h4
  rw [h5, h6] at h4
  simp at h4

/-! ## C6, C7, C8: the content watcher -/

theorem pathEndsWith_metaJson (base : Path) (slug : String) :
    pathEndsWith (base ++ [slug, "meta.json"]) "index.md" = false
    ∧ pathEndsWith (base ++ [slug, "meta.json"]) "meta.json" = true := by
  have hlast : (base ++ [slug, "meta.json"]).getLast? = some "meta.json" := by
    simp [List.getLast?_append]
  constructor
  · unfold pathEndsWith
    rw [hlast]
    decide
  · unfold pathEndsWith
    rw [hlast]
    decide

theorem directoryNameOf_append (base : Path) (slug : String) (rest : List String) :
    directoryNameOf base (base ++ slug :: rest) = slug := by
  simp [directoryNameOf]

theorem contentWatcherTry_items (fuel : Nat) (rt : Runtime) (filePath : Path)
    (st : ServeState) (k : String)
    (hk : k ≠ directoryNameOf st.programInfo.abellConfigs.contentPath filePath) :
    getProp k (contentWatcherTry fuel rt filePath st).2.programInfo.globalMeta.contentMetaInfo
      = getProp k st.programInfo.globalMeta.contentMetaInfo := by
  unfold contentWatcherTry
  simp only []
  split
  · rfl
  · split
    · split
      · rfl
      · simp only [setContentMeta]
        exact getProp_setProp_other _ _ _ _ hk
    · rfl

theorem contentWatcher_programInfo (fuel : Nat) (rt : Runtime) (filePath : Path)
    (st : ServeState) :
    (contentWatcher fuel rt filePath st).2.programInfo
      = (contentWatcherTry fuel rt filePath st).2.programInfo := by
  unfold contentWatcher
  split
  · rename_i st1 h
    rw [h]
  · rename_i st1 h
    rw [h]
  · rename_i e st1 h
    rw [h]
    split <;> rfl

/-- C6. When the content watcher handles a change of `<contentPath>/s/meta.json`, every
entry of `globalMeta.contentMetaInfo` under a key other than `s` is, when the handler
has finished (whatever its outcome), the value it was before. -/
theorem contentWatcher_metaJson_keeps_other_entries (fuel : Nat) (rt : Runtime)
    (st : ServeState) (s k : String) (hk : k ≠ s) :
    getProp k
        (contentWatcher fuel rt (st.programInfo.abellConfigs.contentPath ++ [s, "meta.json"])
          st).2.programInfo.globalMeta.contentMetaInfo
      = getProp k st.programInfo.globalMeta.contentMetaInfo := by
  rw [contentWatcher_programInfo]
  apply contentWatcherTry_items
  rw [directoryNameOf_append]
  exact hk

theorem contentWatcher_metaJson_keeps_other_entries_witness :
    getProp "a"
        (contentWatcher 5 sampleRuntime
          (sampleServeState.programInfo.abellConfigs.contentPath ++ ["b", "meta.json"])
          sampleServeState).2.programInfo.globalMeta.contentMetaInfo
      = getProp "a" sampleServeState.programInfo.globalMeta.contentMetaInfo :=
  contentWatcher_metaJson_keeps_other_entries 5 sampleRuntime sampleServeState "b" "a"
    (by decide)

/-- The handler of the witness does reload the entry of `b` and builds the site. -/
theorem contentWatcher_metaJson_sample :
    (contentWatcher 5 sampleRuntime ["content", "b", "meta.json"] sampleServeState).1 = .done
    ∧ objectKeys (contentWatcher 5 sampleRuntime ["content", "b", "meta.json"]
        sampleServeState).2.programInfo.globalMeta.contentMetaInfo = ["a", "b"] := by
  refine ⟨rfl, rfl⟩

/-- C8. When the content watcher handles a change of a path ending in `index.md` and
`generateContentFile` for that directory raises, the handler runs `build` on what the
failed regeneration left, and the handler's outcome is the outcome of that build: it
raises only if the build raises. -/
theorem contentWatcher_indexMd_falls_back (fuel : Nat) (rt : Runtime) (filePath : Path)
    (st : ServeState) (e : JsError) (fsys' : FileSystem)
    (hpath : pathEndsWith filePath "index.md" = true)
    (hraise : generateContentFile fuel rt st.programInfo
        (directoryNameOf st.programInfo.abellConfigs.contentPath filePath) st.fsys
          = (.raised e, fsys')) :
    (contentWatcher fuel rt filePath st).1 = (build fuel rt st.programInfo fsys').1
    ∧ (contentWatcher fuel rt filePath st).2.fsys = (build fuel rt st.programInfo fsys').2
    ∧ (contentWatcher fuel rt filePath st).2.programInfo = st.programInfo := by
  have htry : contentWatcherTry fuel rt filePath st
      = (.raised e, { st with fsys := fsys' }) := by
    unfold contentWatcherTry
    simp only [hpath, if_true, hraise]
  unfold contentWatcher
  rw [htry]
  simp only []
  cases hb : build fuel rt st.programInfo fsys' with
  | mk outcome fs2 =>
    cases outcome <;> simp

theorem contentWatcher_indexMd_falls_back_witness :
    (contentWatcher 5 sampleRuntime ["content", "b", "index.md"] afterDeleteState).1
        = (build 5 sampleRuntime afterDeleteState.programInfo
            (generateContentFile 5 sampleRuntime sampleProgramInfo "b" afterDeleteFs).2).1
    ∧ (contentWatcher 5 sampleRuntime ["content", "b", "index.md"] afterDeleteState).2.fsys
        = (build 5 sampleRuntime afterDeleteState.programInfo
            (generateContentFile 5 sampleRuntime sampleProgramInfo "b" afterDeleteFs).2).2
    ∧ (contentWatcher 5 sampleRuntime ["content", "b", "index.md"]
        afterDeleteState).2.programInfo = afterDeleteState.programInfo :=
  contentWatcher_indexMd_falls_back 5 sampleRuntime ["content", "b", "index.md"]
    afterDeleteState (.enoent ["content", "b"])
    (generateContentFile 5 sampleRuntime sampleProgramInfo "b" afterDeleteFs).2 rfl rfl

/-- In the witness the regeneration of `b` raises when it lists the deleted directory,
after it has rewritten the page of `b`; the full build then succeeds, and so does the
handler, which leaves no page of `b`. -/
theorem contentWatcher_indexMd_sample :
    generateContentFile 5 sampleRuntime sampleProgramInfo "b" afterDeleteFs
        = (.raised (.enoent ["content", "b"]),
            (generateContentFile 5 sampleRuntime sampleProgramInfo "b" afterDeleteFs).2)
    ∧ (contentWatcher 5 sampleRuntime ["content", "b", "index.md"] afterDeleteState).1
        = .done
    ∧ lookupNode [".debug", "b", "index.html"]
        (contentWatcher 5 sampleRuntime ["content", "b", "index.md"] afterDeleteState).2.fsys
        = none
    ∧ (contentWatcher 5 sampleRuntime ["content", "b", "index.md"] afterDeleteState).2.reloads
        = 2 := by
  refine ⟨rfl, rfl, rfl, rfl⟩

/-- C7, at the failing input. The serve session started with the one item `a`; the
directory `b` has been added. The watcher's build renders `a` and `b`, while the item
map has the key `a` only, so the view of `b` binds `meta` to `undefined`. -/
theorem build_renders_slug_without_entry :
    getDirectories sampleServeState.fsys ["content"] = .ok ["a", "b"]
    ∧ objectKeys sampleServeState.programInfo.globalMeta.contentMetaInfo = ["a"]
    ∧ (contentWatcher 5 sampleRuntime ["content", "b"] sampleServeState).1 = .done
    ∧ objectKeys (contentWatcher 5 sampleRuntime ["content", "b"]
        sampleServeState).2.programInfo.globalMeta.contentMetaInfo = ["a"]
    ∧ lookupNode [".debug", "b", "index.html"]
        (contentWatcher 5 sampleRuntime ["content", "b"] sampleServeState).2.fsys
        = some (Node.file "<article></article>".toList)
    ∧ getProp "b" sampleServeState.programInfo.globalMeta.contentMetaInfo = none
    ∧ (contentView sampleServeState.programInfo.globalMeta "b").meta = .bound none := by
  refine ⟨rfl, rfl, rfl, rfl, rfl, rfl, rfl⟩

/-! ## C10: what a build writes lies below the destination root -/

theorem isPrefixOf_joinPath (d : Path) (names : List String) :
    d.isPrefixOf (joinPath d names) = true := by
  simp [joinPath]

theorem isPrefixOf_trans {d p q : Path} (hdp : d.isPrefixOf p = true)
    (hpq : p.isPrefixOf q = true) : d.isPrefixOf q = true := by
  rw [List.isPrefixOf_iff_prefix] at *
  exact hdp.trans hpq

theorem rmdir_putNode (d p : Path) (n : Node) (fsys : FileSystem)
    (h : d.isPrefixOf p = true) :
    rmdirRecursiveSync (putNode p n fsys) d = rmdirRecursiveSync fsys d := by
  induction fsys with
  | nil => simp [putNode, rmdirRecursiveSync, h]
  | cons e rest ih =>
    obtain ⟨q, m⟩ := e
    unfold putNode
    split
    · rename_i hq
      subst hq
      simp [rmdirRecursiveSync, List.filter_cons, h]
    · simp only [rmdirRecursiveSync, List.filter_cons] at ih ⊢
      rw [ih]

theorem rmdir_append_single (d p : Path) (n : Node) (fsys : FileSystem)
    (h : d.isPrefixOf p = true) :
    rmdirRecursiveSync (fsys ++ [(p, n)]) d = rmdirRecursiveSync fsys d := by
  simp [rmdirRecursiveSync, List.filter_append, h]

theorem rmdir_rmdir (d p : Path) (fsys : FileSystem) (h : d.isPrefixOf p = true) :
    rmdirRecursiveSync (rmdirRecursiveSync fsys p) d = rmdirRecursiveSync fsys d := by
  simp only [rmdirRecursiveSync, List.filter_filter]
  apply List.filter_congr
  intro e _
  cases hp : p.isPrefixOf e.1 with
  | false => simp
  | true => simp [isPrefixOf_trans h hp]

theorem rmdir_filter_ne (d p : Path) (fsys : FileSystem) (h : d.isPrefixOf p = true) :
    rmdirRecursiveSync (fsys.filter (fun e => e.1 ≠ p)) d = rmdirRecursiveSync fsys d := by
  simp only [rmdirRecursiveSync, List.filter_filter]
  apply List.filter_congr
  intro e _
  by_cases he : e.1 = p
  · simp [he, h]
  · simp [he]

theorem rmdir_foldl_putNode (d : Path) (target : Path × Node → Path)
    (entries : List (Path × Node)) (fsys : FileSystem)
    (h : ∀ e ∈ entries, d.isPrefixOf (target e) = true) :
    rmdirRecursiveSync (entries.foldl (fun acc e => putNode (target e) e.2 acc) fsys) d
      = rmdirRecursiveSync fsys d := by
  induction entries generalizing fsys with
  | nil => rfl
  | cons e rest ih =>
    simp only [List.foldl_cons]
    rw [ih _ (fun x hx => h x (List.mem_cons_of_mem _ hx))]
    exact rmdir_putNode d _ _ _ (h e (List.mem_cons_self _ _))

theorem mkdirSync_frame (d p : Path) (fsys fsys' : FileSystem) (h : d.isPrefixOf p = true)
    (hok : mkdirSync fsys p = .ok fsys') :
    rmdirRecursiveSync fsys' d = rmdirRecursiveSync fsys d := by
  unfold mkdirSync at hok
  split at hok
  · cases hok
  · split at hok
    · injection hok with hok
      subst hok
      exact rmdir_append_single d p _ _ h
    · cases hok

theorem writeFileSync_frame (d p : Path) (data : List Char) (fsys fsys' : FileSystem)
    (h : d.isPrefixOf p = true) (hok : writeFileSync fsys p data = .ok fsys') :
    rmdirRecursiveSync fsys' d = rmdirRecursiveSync fsys d := by
  unfold writeFileSync at hok
  split at hok
  · cases hok
  · split at hok
    · injection hok with hok
      subst hok
      exact rmdir_putNode d p _ _ h
    · cases hok

theorem unlinkSync_frame (d p : Path) (fsys fsys' : FileSystem) (h : d.isPrefixOf p = true)
    (hok : unlinkSync fsys p = .ok fsys') :
    rmdirRecursiveSync fsys' d = rmdirRecursiveSync fsys d := by
  unfold unlinkSync at hok
  split at hok
  · injection hok with hok
    subst hok
    exact rmdir_filter_ne d p _ h
  · cases hok
  · cases hok

theorem copyFileSync_frame (d source target : Path) (fsys fsys' : FileSystem)
    (h : d.isPrefixOf target = true) (hok : copyFileSync fsys source target = .ok fsys') :
    rmdirRecursiveSync fsys' d = rmdirRecursiveSync fsys d := by
  unfold copyFileSync at hok
  split at hok
  · exact writeFileSync_frame d target _ _ _ h hok
  · cases hok

theorem copyFolderSync_frame (d source target : Path) (fsys fsys' : FileSystem)
    (h : d.isPrefixOf target = true) (hok : copyFolderSync fsys source target = .ok fsys') :
    rmdirRecursiveSync fsys' d = rmdirRecursiveSync fsys d := by
  unfold copyFolderSync at hok
  split at hok
  · injection hok with hok
    subst hok
    apply rmdir_foldl_putNode d (fun e => target ++ e.1.drop source.length)
    intro e _
    have : target.isPrefixOf (target ++ e.1.drop source.length) = true := by simp
    exact isPrefixOf_trans h this
  · cases hok

theorem createPathIfAbsent_frame (d p : Path) (fsys fsys' : FileSystem)
    (h : d.isPrefixOf p = true) (hok : createPathIfAbsent fsys p = .ok fsys') :
    rmdirRecursiveSync fsys' d = rmdirRecursiveSync fsys d := by
  unfold createPathIfAbsent at hok
  split at hok
  · injection hok with hok
    subst hok
    rfl
  · exact mkdirSync_frame d p _ _ h hok

theorem copyEach_frame (d source target : Path) (names : List String) (fsys : FileSystem)
    (h : d.isPrefixOf target = true) :
    rmdirRecursiveSync (copyEach source target names fsys).2 d = rmdirRecursiveSync fsys d := by
  induction names generalizing fsys with
  | nil => rfl
  | cons filename rest ih =>
    unfold copyEach
    split
    · rfl
    · rename_i fsys' hok
      rw [ih fsys']
      exact copyFileSync_frame d _ _ _ _
        (isPrefixOf_trans h (isPrefixOf_joinPath target [filename])) hok

theorem copyContentAssets_frame (d source target : Path) (fsys : FileSystem)
    (h : d.isPrefixOf target = true) :
    rmdirRecursiveSync (copyContentAssets source target fsys).2 d
      = rmdirRecursiveSync fsys d := by
  unfold copyContentAssets
  split
  · rfl
  · exact copyEach_frame d source target _ fsys h

theorem generateContentFile_frame (fuel : Nat) (rt : Runtime) (programInfo : ProgramInfo)
    (contentSlug : String) (fsys : FileSystem) :
    rmdirRecursiveSync (generateContentFile fuel rt programInfo contentSlug fsys).2
        programInfo.abellConfigs.destinationPath
      = rmdirRecursiveSync fsys programInfo.abellConfigs.destinationPath := by
  unfold generateContentFile
  split
  · rfl
  · rename_i fs1 h1
    have hf1 := createPathIfAbsent_frame programInfo.abellConfigs.destinationPath _ _ _
      (isPrefixOf_joinPath _ _) h1
    simp only []
    split
    · exact hf1
    · exact hf1
    · split
      · exact hf1
      · split
        · exact hf1
        · rename_i fs2 h2
          have hf2 := writeFileSync_frame programInfo.abellConfigs.destinationPath _ _ _ _
            (isPrefixOf_joinPath _ _) h2
          rw [copyContentAssets_frame _ _ _ _ (isPrefixOf_joinPath _ _), hf2, hf1]

theorem generateContentFiles_frame (fuel : Nat) (rt : Runtime) (programInfo : ProgramInfo)
    (slugs : List String) (fsys : FileSystem) :
    rmdirRecursiveSync (generateContentFiles fuel rt programInfo slugs fsys).2
        programInfo.abellConfigs.destinationPath
      = rmdirRecursiveSync fsys programInfo.abellConfigs.destinationPath := by
  induction slugs generalizing fsys with
  | nil => rfl
  | cons contentSlug rest ih =>
    have hone := generateContentFile_frame fuel rt programInfo contentSlug fsys
    unfold generateContentFiles
    split
    · rename_i fsys' hdone
      rw [hdone] at hone
      rw [ih fsys']
      exact hone
    · rename_i failed hnot
      exact hone

theorem generateHTMLFile_frame (fuel : Nat) (rt : Runtime) (programInfo : ProgramInfo)
    (filepath : String) (fsys : FileSystem) :
    rmdirRecursiveSync (generateHTMLFile fuel rt programInfo filepath fsys).2
        programInfo.abellConfigs.destinationPath
      = rmdirRecursiveSync fsys programInfo.abellConfigs.destinationPath := by
  unfold generateHTMLFile
  split
  · rfl
  · split
    · rfl
    · split
      · rfl
      · rfl
      · split
        · rfl
        · split
          · rfl
          · rename_i fs1 h1
            exact writeFileSync_frame programInfo.abellConfigs.destinationPath _ _ _ _
              (isPrefixOf_joinPath _ _) h1

theorem buildInto_frame (fuel : Nat) (rt : Runtime) (programInfo : ProgramInfo)
    (contentDirectories : List String) (fsys : FileSystem) :
    rmdirRecursiveSync (buildInto fuel rt programInfo contentDirectories fsys).2
        programInfo.abellConfigs.destinationPath
      = rmdirRecursiveSync fsys programInfo.abellConfigs.destinationPath := by
  have hself : programInfo.abellConfigs.destinationPath.isPrefixOf
      programInfo.abellConfigs.destinationPath = true := by simp
  unfold buildInto
  split
  · rfl
  · rename_i fs1 h1
    have hf1 := mkdirSync_frame programInfo.abellConfigs.destinationPath _ _ _ hself h1
    split
    · exact hf1
    · rename_i fs2 h2
      have hf2 := copyFolderSync_frame programInfo.abellConfigs.destinationPath _ _ _ _ hself h2
      have hf3 := rmdir_rmdir programInfo.abellConfigs.destinationPath
        (joinPath programInfo.abellConfigs.destinationPath ["[content]"]) fs2
        (isPrefixOf_joinPath _ _)
      split
      · rw [hf3, hf2, hf1]
      · rename_i fs3 h3
        have hf4 := unlinkSync_frame programInfo.abellConfigs.destinationPath _ _ _
          (isPrefixOf_joinPath _ _) h3
        have hf5 := generateContentFiles_frame fuel rt programInfo contentDirectories fs3
        split
        · rename_i fs4 h4
          rw [h4] at hf5
          rw [generateHTMLFile_frame, hf5, hf4, hf3, hf2, hf1]
        · rw [hf5, hf4, hf3, hf2, hf1]

theorem build_frame (fuel : Nat) (rt : Runtime) (programInfo : ProgramInfo)
    (fsys : FileSystem) :
    rmdirRecursiveSync (build fuel rt programInfo fsys).2
        programInfo.abellConfigs.destinationPath
      = rmdirRecursiveSync fsys programInfo.abellConfigs.destinationPath := by
  unfold build
  split
  · rfl
  · rw [buildInto_frame]
    exact rmdir_rmdir _ _ _ (by simp)

theorem lookupNode_rmdir (d p : Path) (fsys : FileSystem) (h : d.isPrefixOf p = false) :
    lookupNode p (rmdirRecursiveSync fsys d) = lookupNode p fsys := by
  induction fsys with
  | nil => rfl
  | cons e rest ih =>
    obtain ⟨q, n⟩ := e
    simp only [rmdirRecursiveSync] at ih
    by_cases hq : q = p
    · subst hq
      simp [rmdirRecursiveSync, List.filter_cons, h, lookupNode]
    · by_cases hd : d.isPrefixOf q = true
      · simp [rmdirRecursiveSync, List.filter_cons, hd, lookupNode, hq]
        simpa [rmdirRecursiveSync] using ih
      · simp [rmdirRecursiveSync, List.filter_cons, hd, lookupNode, hq]
        simpa [rmdirRecursiveSync] using ih

theorem not_prefix_child (d c : Path) (q : Path) (hdc : ¬ d <+: c) (hcd : ¬ c <+: d)
    (hq : q ≠ []) (hparent : q.dropLast = c) : d.isPrefixOf q = false := by
  by_contra hcon
  have hpre : d <+: q := by
    rw [← List.isPrefixOf_iff_prefix]
    simpa using hcon
  have hqc : q = c ++ [q.getLast hq] := by
    rw [← hparent]
    exact (List.dropLast_append_getLast hq).symm
  rw [hqc] at hpre
  rcases List.prefix_concat_iff.mp hpre with h1 | h1
  · apply hcd
    rw [h1]
    exact List.prefix_append _ _
  · exact hdc h1

theorem getDirectories_rmdir (d c : Path) (fsys : FileSystem) (hdc : ¬ d <+: c)
    (hcd : ¬ c <+: d) :
    getDirectories (rmdirRecursiveSync fsys d) c = getDirectories fsys c := by
  have hdc' : d.isPrefixOf c = false := by
    by_contra hcon
    apply hdc
    rw [← List.isPrefixOf_iff_prefix]
    simpa using hcon
  unfold getDirectories isDirectory
  rw [lookupNode_rmdir d c fsys hdc']
  have hlist : (rmdirRecursiveSync fsys d).filterMap (fun e =>
        if e.1 ≠ [] ∧ e.1.dropLast = c ∧ e.2 = Node.dir then e.1.getLast? else none)
      = fsys.filterMap (fun e =>
        if e.1 ≠ [] ∧ e.1.dropLast = c ∧ e.2 = Node.dir then e.1.getLast? else none) := by
    unfold rmdirRecursiveSync
    rw [List.filterMap_filter]
    apply List.filterMap_congr
    intro e _
    by_cases hcond : e.1 ≠ [] ∧ e.1.dropLast = c ∧ e.2 = Node.dir
    · have := not_prefix_child d c e.1 hdc hcd hcond.1 hcond.2.1
      simp [this]
    · simp [hcond]
  rw [hlist]

theorem getDirectories_of_same_outside (programInfo : ProgramInfo) (fsys fsys' : FileSystem)
    (hdc : ¬ programInfo.abellConfigs.destinationPath <+: programInfo.abellConfigs.contentPath)
    (hcd : ¬ programInfo.abellConfigs.contentPath <+: programInfo.abellConfigs.destinationPath)
    (hsame : rmdirRecursiveSync fsys' programInfo.abellConfigs.destinationPath
      = rmdirRecursiveSync fsys programInfo.abellConfigs.destinationPath) :
    getDirectories fsys' programInfo.abellConfigs.contentPath
      = getDirectories fsys programInfo.abellConfigs.contentPath := by
  rw [← getDirectories_rmdir _ _ fsys' hdc hcd, ← getDirectories_rmdir _ _ fsys hdc hcd, hsame]

theorem build_of_same_outside (fuel : Nat) (rt : Runtime) (programInfo : ProgramInfo)
    (fsys fsys' : FileSystem)
    (hdc : ¬ programInfo.abellConfigs.destinationPath <+: programInfo.abellConfigs.contentPath)
    (hcd : ¬ programInfo.abellConfigs.contentPath <+: programInfo.abellConfigs.destinationPath)
    (hsame : rmdirRecursiveSync fsys' programInfo.abellConfigs.destinationPath
      = rmdirRecursiveSync fsys programInfo.abellConfigs.destinationPath) :
    (build fuel rt programInfo fsys').1 = (build fuel rt programInfo fsys).1
    ∧ (isDirectory fsys programInfo.abellConfigs.contentPath = true →
        build fuel rt programInfo fsys' = build fuel rt programInfo fsys) := by
  have hdirs := getDirectories_of_same_outside programInfo fsys fsys' hdc hcd hsame
  unfold build
  rw [hdirs, hsame]
  cases hg : getDirectories fsys programInfo.abellConfigs.contentPath with
  | error e =>
    refine ⟨rfl, ?_⟩
    intro hdir
    simp [getDirectories, hdir] at hg
  | ok dirs => exact ⟨rfl, fun _ => rfl⟩

theorem build_twice (fuel : Nat) (rt : Runtime) (programInfo : ProgramInfo)
    (fsys : FileSystem)
    (hdc : ¬ programInfo.abellConfigs.destinationPath <+: programInfo.abellConfigs.contentPath)
    (hcd : ¬ programInfo.abellConfigs.contentPath <+: programInfo.abellConfigs.destinationPath) :
    build fuel rt programInfo (build fuel rt programInfo fsys).2
      = build fuel rt programInfo fsys := by
  by_cases hdir : isDirectory fsys programInfo.abellConfigs.contentPath = true
  · exact (build_of_same_outside fuel rt programInfo fsys _ hdc hcd
      (build_frame fuel rt programInfo fsys)).2 hdir
  · have hfail : build fuel rt programInfo fsys
        = (.raised (.enoent programInfo.abellConfigs.contentPath), fsys) := by
      simp [build, getDirectories, hdir]
    rw [hfail]
    exact hfail

theorem lookupNode_outside (d p : Path) (fsys fsys' : FileSystem)
    (hp : ¬ d <+: p)
    (hsame : rmdirRecursiveSync fsys' d = rmdirRecursiveSync fsys d) :
    lookupNode p fsys' = lookupNode p fsys := by
  have hp' : d.isPrefixOf p = false := by
    by_contra hcon
    apply hp
    rw [← List.isPrefixOf_iff_prefix]
    simpa using hcon
  rw [← lookupNode_rmdir d p fsys' hp', ← lookupNode_rmdir d p fsys hp', hsame]

theorem not_prefix_below (d r p : Path) (hdr : ¬ d <+: r) (hrd : ¬ r <+: d) (hrp : r <+: p) :
    ¬ d <+: p := by
  intro hdp
  rcases List.prefix_or_prefix_of_prefix hdp hrp with h | h
  · exact hdr h
  · exact hrd h

theorem generateContentFiles_clock (fuel : Nat) (rt : Runtime) (programInfo : ProgramInfo)
    (t : Int) (slugs : List String) (fsys : FileSystem) :
    generateContentFiles fuel rt { programInfo with compileStartTime := t } slugs fsys
      = generateContentFiles fuel rt programInfo slugs fsys := by
  induction slugs generalizing fsys with
  | nil => rfl
  | cons contentSlug rest ih =>
    have hone : generateContentFile fuel rt { programInfo with compileStartTime := t }
        contentSlug fsys = generateContentFile fuel rt programInfo contentSlug fsys := rfl
    unfold generateContentFiles
    rw [hone]
    split
    · rename_i fsys' _
      exact ih fsys'
    · rfl

theorem build_clock (fuel : Nat) (rt : Runtime) (programInfo : ProgramInfo) (t : Int)
    (fsys : FileSystem) :
    build fuel rt { programInfo with compileStartTime := t } fsys
      = build fuel rt programInfo fsys := by
  have hhtml : ∀ fs, generateHTMLFile fuel rt { programInfo with compileStartTime := t }
      "index" fs = generateHTMLFile fuel rt programInfo "index" fs := fun _ => rfl
  unfold build buildInto
  simp only [generateContentFiles_clock, hhtml]

/-- C10. When the destination root is disjoint from the source and content roots
(neither path is a prefix of the other): building a second time, on what the first build
left, gives the outcome and the filesystem of the first build; a build leaves every path
outside the destination root as it was, in particular everything at or below the source
and content roots; and two filesystems that agree outside the destination root give the
same outcome and, once the content root can be listed, the same filesystem. The build
reads no clock: its arguments are the context and the filesystem. -/
theorem build_idempotent (fuel : Nat) (rt : Runtime) (programInfo : ProgramInfo)
    (fsys : FileSystem)
    (hds : ¬ programInfo.abellConfigs.destinationPath <+: programInfo.abellConfigs.sourcePath)
    (hsd : ¬ programInfo.abellConfigs.sourcePath <+: programInfo.abellConfigs.destinationPath)
    (hdc : ¬ programInfo.abellConfigs.destinationPath <+: programInfo.abellConfigs.contentPath)
    (hcd : ¬ programInfo.abellConfigs.contentPath <+: programInfo.abellConfigs.destinationPath) :
    build fuel rt programInfo (build fuel rt programInfo fsys).2
        = build fuel rt programInfo fsys
    ∧ rmdirRecursiveSync (build fuel rt programInfo fsys).2
          programInfo.abellConfigs.destinationPath
        = rmdirRecursiveSync fsys programInfo.abellConfigs.destinationPath
    ∧ (∀ p, (programInfo.abellConfigs.sourcePath <+: p
          ∨ programInfo.abellConfigs.contentPath <+: p) →
        lookupNode p (build fuel rt programInfo fsys).2 = lookupNode p fsys)
    ∧ (∀ fsys', rmdirRecursiveSync fsys' programInfo.abellConfigs.destinationPath
          = rmdirRecursiveSync fsys programInfo.abellConfigs.destinationPath →
        (build fuel rt programInfo fsys').1 = (build fuel rt programInfo fsys).1
        ∧ (isDirectory fsys programInfo.abellConfigs.contentPath = true →
            build fuel rt programInfo fsys' = build fuel rt programInfo fsys))
    ∧ ∀ t : Int, build fuel rt { programInfo with compileStartTime := t } fsys
        = build fuel rt programInfo fsys := by
  refine ⟨build_twice fuel rt programInfo fsys hdc hcd, build_frame fuel rt programInfo fsys,
    ?_, ?_, ?_⟩
  · intro p hp
    apply lookupNode_outside programInfo.abellConfigs.destinationPath p _ _ ?_
      (build_frame fuel rt programInfo fsys)
    rcases hp with hp | hp
    · exact not_prefix_below _ _ _ hds hsd hp
    · exact not_prefix_below _ _ _ hdc hcd hp
  · intro fsys' hsame
    exact build_of_same_outside fuel rt programInfo fsys fsys' hdc hcd hsame
  · intro t
    exact build_clock fuel rt programInfo t fsys

theorem build_idempotent_witness :
    build 5 sampleRuntime sampleProgramInfo (build 5 sampleRuntime sampleProgramInfo siteFs).2
        = build 5 sampleRuntime sampleProgramInfo siteFs
    ∧ rmdirRecursiveSync (build 5 sampleRuntime sampleProgramInfo siteFs).2
          sampleProgramInfo.abellConfigs.destinationPath
        = rmdirRecursiveSync siteFs sampleProgramInfo.abellConfigs.destinationPath
    ∧ (∀ p, (sampleProgramInfo.abellConfigs.sourcePath <+: p
          ∨ sampleProgramInfo.abellConfigs.contentPath <+: p) →
        lookupNode p (build 5 sampleRuntime sampleProgramInfo siteFs).2 = lookupNode p siteFs)
    ∧ (∀ fsys', rmdirRecursiveSync fsys' sampleProgramInfo.abellConfigs.destinationPath
          = rmdirRecursiveSync siteFs sampleProgramInfo.abellConfigs.destinationPath →
        (build 5 sampleRuntime sampleProgramInfo fsys').1
          = (build 5 sampleRuntime sampleProgramInfo siteFs).1
        ∧ (isDirectory siteFs sampleProgramInfo.abellConfigs.contentPath = true →
            build 5 sampleRuntime sampleProgramInfo fsys'
              = build 5 sampleRuntime sampleProgramInfo siteFs))
    ∧ ∀ t : Int, build 5 sampleRuntime { sampleProgramInfo with compileStartTime := t } siteFs
        = build 5 sampleRuntime sampleProgramInfo siteFs :=
  build_idempotent 5 sampleRuntime sampleProgramInfo siteFs (by decide) (by decide)
    (by decide) (by decide)

/-- The build of the witness completes, and writes the item pages, the asset of `a`, the
copied stylesheet and the index page into the new destination directory. -/
theorem build_sample :
    (build 5 sampleRuntime sampleProgramInfo siteFs).1 = .done
    ∧ isDirectory siteFs sampleProgramInfo.abellConfigs.contentPath = true
    ∧ ((build 5 sampleRuntime sampleProgramInfo siteFs).2.map Prod.fst).filter
        (fun p => [".debug"].isPrefixOf p)
        = [[".debug"], [".debug", "style.css"], [".debug", "a"],
           [".debug", "a", "index.html"], [".debug", "a", "cover.png"],
           [".debug", "b"], [".debug", "b", "index.html"], [".debug", "index.html"]] := by
  refine ⟨rfl, rfl, rfl⟩

end Abell
